import Mathlib

/-!
# Shallow embedding of the `internal/decompile` task store and worker

This file embeds the durable task-queue engine of the repository
(`internal/decompile/worker.go`) in Lean 4 and proves the testable
properties of its specification against that embedding.

The SQLite table `decompilation_tasks` is modelled as a list of rows
together with the next AUTOINCREMENT id.  Every store operation is a pure
state-passing function translated from the SQL statements in the source.
Driver failures (the `error` results of `database/sql` calls) are modelled
by explicit Boolean failure oracles; since every mutating operation runs
inside a single transaction with `defer tx.Rollback()`, a failing call
leaves the persistent state unchanged, which the oracle versions encode by
returning the input store alongside the error.

Wall-clock time (`CURRENT_TIMESTAMP`) is modelled by an explicit `now`
parameter.  Concurrency: `FetchPendingBatch` opens its transaction with
`sql.LevelSerializable`, so any concurrent execution of two claims is
equivalent to a serial execution in some order; concurrency properties are
therefore stated over sequential composition of the embedded operations.
-/

namespace Decompile

/-- Statuses from worker.go: the four values of the `status` column. -/
inductive TaskStatus where
  | pending
  | in_flight
  | completed
  | failed
deriving DecidableEq, Repr

/-- A row of `decompilation_tasks` / the Go `Task` struct.  `sql.NullString`
columns are `Option String`; the two `TIMESTAMP` columns are abstract
instants (`Nat`). -/
structure Task where
  id : Nat
  className : String
  symbolName : String
  assemblyCode : String
  status : TaskStatus
  retries : Nat
  decompiledSource : Option String
  errorMessage : Option String
  createdAt : Nat
  updatedAt : Nat
deriving DecidableEq, Repr

/-- The persistent state of a `TaskStore`: the table rows (in rowid order)
and the next AUTOINCREMENT id. -/
structure Store where
  rows : List Task
  nextId : Nat
deriving DecidableEq, Repr

/-- The store produced by `initSchema` on a fresh database file. -/
def Store.empty : Store := ⟨[], 1⟩

/-- The query `SELECT ... WHERE id = ?` returning the first matching row. -/
def rowById (s : Store) (i : Nat) : Option Task :=
  s.rows.find? (fun r => r.id = i)

/-- The statement `UPDATE decompilation_tasks SET ... WHERE id = ?`: apply `f` to every
row whose id is `i`. -/
def updById (i : Nat) (f : Task → Task) (s : Store) : Store :=
  { s with rows := s.rows.map (fun r => if r.id = i then f r else r) }

/-- Go `UpdateTaskSuccess` (worker.go): set the row to completed with the
given source and a fresh `updated_at`.  The SQL touches no other column
(in particular `error_message` is kept), and an id matching no row is a
zero-row update that still returns success. -/
def UpdateTaskSuccessStore (now : Nat) (taskID : Nat) (decompiledSource : String)
    (s : Store) : Store :=
  updById taskID
    (fun r => { r with status := .completed,
                       decompiledSource := some decompiledSource,
                       updatedAt := now }) s

/-- Go `UpdateTaskFailure` (worker.go): set the row to failed with the given
error message and retry count and a fresh `updated_at`.  The SQL touches no
other column (in particular `decompiled_source` is kept) and has no guard
on the current status. -/
def UpdateTaskFailureStore (now : Nat) (taskID : Nat) (errorMessage : String)
    (retryCount : Nat) (s : Store) : Store :=
  updById taskID
    (fun r => { r with status := .failed,
                       errorMessage := some errorMessage,
                       retries := retryCount,
                       updatedAt := now }) s

/-- Go `ResetInFlightTasks` (worker.go):
`UPDATE decompilation_tasks SET status = "pending" WHERE status = "in_flight"` (spelled with placeholders in the source).
Note the SQL does not touch `updated_at`. -/
def ResetInFlightTasks (s : Store) : Store :=
  let f := fun (r : Task) =>
    if r.status = .in_flight then { r with status := TaskStatus.pending } else r
  { s with rows := s.rows.map f }

/-- The `UNIQUE(class_name, symbol_name)` key of a task. -/
def keyOf (t : Task) : String × String := (t.className, t.symbolName)

/-- Whether the table already holds a row with the given key. -/
def hasKey (rows : List Task) (k : String × String) : Bool :=
  rows.any (fun r => r.className = k.1 ∧ r.symbolName = k.2)

/-- The row created by a non-ignored insert: only class, symbol and
assembly are read from the input task; the remaining columns take the
schema defaults `status = pending`, `retries = 0`, NULL
`decompiled_source` / `error_message`, and `CURRENT_TIMESTAMP` for both
timestamps. -/
def freshRow (now : Nat) (t : Task) (s : Store) : Task :=
  { id := s.nextId,
    className := t.className,
    symbolName := t.symbolName,
    assemblyCode := t.assemblyCode,
    status := .pending,
    retries := 0,
    decompiledSource := none,
    errorMessage := none,
    createdAt := now,
    updatedAt := now }

/-- One `INSERT OR IGNORE INTO decompilation_tasks
(class_name, symbol_name, assembly_code, status) VALUES (?,?,?,pending)`:
a duplicate `(class_name, symbol_name)` is ignored silently; otherwise a
fresh row is appended. -/
def insertIgnore (now : Nat) (t : Task) (s : Store) : Store :=
  if hasKey s.rows (keyOf t) then s
  else { rows := s.rows ++ [freshRow now t s], nextId := s.nextId + 1 }

/-- Go `AddTasks` (worker.go), success path: the prepared insert executed once
per task inside one transaction, then committed. -/
def AddTasks (now : Nat) (tasks : List Task) (s : Store) : Store :=
  tasks.foldl (fun st t => insertIgnore now t st) s

/-- The insert loop of `AddTasks` with a failure oracle: `failAt i = true`
means the i-th `stmt.ExecContext` returns a driver error, aborting the
loop. -/
def addLoop (now : Nat) (failAt : Nat → Bool) :
    List Task → Nat → Store → Except String Store
  | [], _, st => .ok st
  | t :: ts, i, st =>
      if failAt i then .error "failed to execute statement"
      else addLoop now failAt ts (i + 1) (insertIgnore now t st)

/-- Go `AddTasks` with driver-failure oracles.  The transaction semantics
(`BeginTx` … `defer tx.Rollback()` … `tx.Commit()`) mean that any failure
before a successful commit leaves the persistent state unchanged, which is
encoded by returning the input store alongside the error. -/
def AddTasksE (now : Nat) (failAt : Nat → Bool) (commitFails : Bool)
    (tasks : List Task) (s : Store) : Store × Option String :=
  match addLoop now failAt tasks 0 s with
  | .error e => (s, some e)
  | .ok st => if commitFails then (s, some "failed to commit transaction") else (st, none)

/-- The `SELECT ... WHERE status = "pending" LIMIT ?` of `FetchPendingBatch`:
pending rows in table order, truncated to the batch size. -/
def pendingBatch (s : Store) (batchSize : Nat) : List Task :=
  (s.rows.filter (fun r => r.status = .pending)).take batchSize

/-- The scanned copy of a selected row: the SELECT of `FetchPendingBatch`
reads every column except `decompiled_source` and `error_message`, so the
returned `Task` values carry `none` there (Go zero value of
`sql.NullString`) and the status as read, i.e. pending. -/
def scannedTask (r : Task) : Task :=
  { r with decompiledSource := none, errorMessage := none }

/-- Go `FetchPendingBatch` (worker.go), success path: select up to `batchSize`
pending rows; if none, return the empty batch without touching the store;
otherwise mark exactly the selected ids in_flight (fresh `updated_at`),
commit, and return the rows as seen at claim time. -/
def FetchPendingBatch (now : Nat) (batchSize : Nat) (s : Store) :
    List Task × Store :=
  let pend := pendingBatch s batchSize
  if pend.isEmpty then ([], s)
  else
    let ids := pend.map (·.id)
    let mark := fun (r : Task) =>
      if r.id ∈ ids then { r with status := TaskStatus.in_flight, updatedAt := now } else r
    (pend.map scannedTask, { s with rows := s.rows.map mark })

/-- Go `FetchPendingBatch` with driver-failure oracles for its four failure
points (`BeginTx`, the query/scan, the in_flight `UPDATE`, `Commit`).  Any
failure rolls the transaction back, leaving the store unchanged.  When the
batch is empty the function returns before the update and commit, so those
oracles are not consulted. -/
def FetchPendingBatchE (beginFails queryFails updateFails commitFails : Bool)
    (now : Nat) (batchSize : Nat) (s : Store) :
    Except String (List Task) × Store :=
  if beginFails then (.error "failed to begin transaction", s)
  else if queryFails then (.error "failed to query pending tasks", s)
  else
    let pend := pendingBatch s batchSize
    if pend.isEmpty then (.ok [], s)
    else if updateFails then (.error "failed to update task statuses to in_flight", s)
    else if commitFails then (.error "failed to commit transaction", s)
    else
      let res := FetchPendingBatch now batchSize s
      (.ok res.1, res.2)

/-- Struct `DecompiledResult` from worker.go: one outcome of the model reply. -/
structure DecompiledResult where
  symbolName : String
  decompiledSource : String
  success : Bool
  errorMessage : String
deriving DecidableEq, Repr

/-- The worker's `taskMap`: a Go map built by iterating the claimed batch
and storing each task under its symbol name, a later task overwriting an
earlier one with the same symbol. -/
def buildTaskMap (tasks : List Task) : String → Option Task :=
  tasks.foldl (fun m t => fun sym => if sym = t.symbolName then some t else m sym)
    (fun _ => none)

/-- The body of the worker's result loop (worker.go lines 105–124): look
the outcome's symbol up in the task map; an unknown symbol is logged and
ignored; a successful outcome completes the task with its source; an
unsuccessful one fails the task with the outcome's error message and the
claimed copy's retry count (retries are not incremented for a semantic
failure). -/
def applyOutcome (now : Nat) (taskMap : String → Option Task) (s : Store)
    (result : DecompiledResult) : Store :=
  match taskMap result.symbolName with
  | none => s
  | some task =>
      if result.success then
        UpdateTaskSuccessStore now task.id result.decompiledSource s
      else
        UpdateTaskFailureStore now task.id result.errorMessage task.retries s

/-- The worker's whole outcome-application pass over a model reply. -/
def processResults (now : Nat) (tasks : List Task) (results : List DecompiledResult)
    (s : Store) : Store :=
  results.foldl (applyOutcome now (buildTaskMap tasks)) s

/-- The worker's batch-wide transport-failure handler (worker.go lines
86–96): every task of the claimed batch is failed; below the retry cap the
call error message is recorded and the retry count incremented, at or above
the cap the message is "Max retries exceeded" and the count kept. -/
def applyTransportFailure (now : Nat) (errMsg : String) (maxRetries : Nat)
    (tasks : List Task) (s : Store) : Store :=
  tasks.foldl
    (fun st task =>
      if task.retries < maxRetries then
        UpdateTaskFailureStore now task.id errMsg (task.retries + 1) st
      else
        UpdateTaskFailureStore now task.id "Max retries exceeded" task.retries st) s

/-- Lower-case hex digit, as produced by Go's JSON encoder for `\u00xx`
escapes. -/
def hexDigit (n : Nat) : String :=
  if n = 0 then "0" else if n = 1 then "1" else if n = 2 then "2"
  else if n = 3 then "3" else if n = 4 then "4" else if n = 5 then "5"
  else if n = 6 then "6" else if n = 7 then "7" else if n = 8 then "8"
  else if n = 9 then "9" else if n = 10 then "a" else if n = 11 then "b"
  else if n = 12 then "c" else if n = 13 then "d" else if n = 14 then "e"
  else "f"

/-- Go `encoding/json` escaping of one character inside a string literal:
quote, backslash, the named control escapes, HTML-unsafe characters as
`\u00xx`, other control characters as `\u00xx`. -/
def jsonEscapeChar (c : Char) : String :=
  if c = '"' then "\\\""
  else if c = '\\' then "\\\\"
  else if c = '\n' then "\\n"
  else if c = '\r' then "\\r"
  else if c = '\t' then "\\t"
  else if c = '<' then "\\u003c"
  else if c = '>' then "\\u003e"
  else if c = '&' then "\\u0026"
  else if c.toNat < 32 then "\\u00" ++ hexDigit (c.toNat / 16) ++ hexDigit (c.toNat % 16)
  else String.singleton c

/-- A JSON string literal for `s`, Go-style. -/
def jsonString (s : String) : String :=
  "\"" ++ String.join (s.toList.map jsonEscapeChar) ++ "\""

/-- Rendering of `json.MarshalIndent` on one `Method` value at
one level of two-space indentation. -/
def marshalMethod (t : Task) : String :=
  "\x7b\n    \"symbol_name\": " ++ jsonString t.symbolName ++
  ",\n    \"assembly_code\": " ++ jsonString t.assemblyCode ++ "\n  \x7d"

/-- Rendering of `json.MarshalIndent(methods, "", "  ")` for the batch: marshalling a
slice of structs whose fields are strings; on such a value the Go encoder
cannot fail (no unsupported type or value can occur, and invalid UTF-8 is
replaced, not rejected). -/
def marshalMethods (tasks : List Task) : String :=
  match tasks with
  | [] => "[]"
  | _ => "[\n  " ++ String.intercalate ",\n  " (tasks.map marshalMethod) ++ "\n]"

/-- The fixed instruction prefix of the prompt (worker.go line 132). -/
def promptPreamble : String :=
  "Please decompile the following Objective-C methods. Return a JSON array where each object has \x27symbol_name\x27, \x27decompiled_source\x27, \x27success\x27, and \x27error_message\x27 fields.\n\n"

/-- Go `formatPrompt` (worker.go): preamble plus the marshalled batch.  The
only fallible step in the source is `json.MarshalIndent`, which on this
argument type never returns an error, so the embedding is total and always
returns `.ok`. -/
def formatPrompt (tasks : List Task) : Except String String :=
  .ok (promptPreamble ++ marshalMethods tasks)

/-- The worker's prompt-building step (worker.go lines 75–83): on a
serialization failure every claimed task is failed with
"Failed to format prompt" and an incremented retry count and no prompt is
produced; on success the store is untouched and the prompt returned. -/
def promptStage (now : Nat) (tasks : List Task) (s : Store) : Store × Option String :=
  match formatPrompt tasks with
  | .ok p => (s, some p)
  | .error _ =>
      (tasks.foldl (fun st task =>
          UpdateTaskFailureStore now task.id "Failed to format prompt" (task.retries + 1) st) s,
       none)

/-- Go `UpdateTaskSuccess` with its driver-failure oracle.  The source runs a
single `ExecContext` and returns its error; it never inspects
`RowsAffected`, so an id matching no row is a zero-row update that still
returns success. -/
def UpdateTaskSuccessE (execFails : Bool) (now taskID : Nat) (src : String)
    (s : Store) : Store × Option String :=
  if execFails then (s, some "failed to update task as successful")
  else (UpdateTaskSuccessStore now taskID src s, none)

/-- First row carrying the given `(class, symbol)` key. -/
def rowByKey (rows : List Task) (k : String × String) : Option Task :=
  rows.find? (fun r => r.className = k.1 ∧ r.symbolName = k.2)

/-! ### Concrete fixtures used by witnesses and counterexamples -/

/-- Convenience constructor for concrete rows (timestamps 0, NULL source
and error), in the style of the literals of `database_test.go`. -/
def mkTask (i : Nat) (cls sym body : String) (st : TaskStatus) (re : Nat) : Task :=
  { id := i, className := cls, symbolName := sym, assemblyCode := body,
    status := st, retries := re, decompiledSource := none, errorMessage := none,
    createdAt := 0, updatedAt := 0 }

/-- The four seeded rows of `TestFetchPendingBatch_Transactional`. -/
def testStore4 : Store :=
  { rows := [mkTask 1 "Test" "method1" "..." .pending 0,
             mkTask 2 "Test" "method2" "..." .pending 0,
             mkTask 3 "Test" "method3" "..." .pending 0,
             mkTask 4 "Test" "method4" "..." .pending 0],
    nextId := 5 }

/-- One claimed task. -/
def cexBatch : List Task := [mkTask 1 "C" "f" "insn" .in_flight 0]

/-- A store holding exactly the claimed row of `cexBatch`. -/
def cexStoreIF : Store := { rows := cexBatch, nextId := 2 }

/-- A successful outcome for symbol `f`. -/
def cexOk : DecompiledResult :=
  { symbolName := "f", decompiledSource := "src", success := true, errorMessage := "" }

/-- A failed outcome for the same symbol `f`. -/
def cexBad : DecompiledResult :=
  { symbolName := "f", decompiledSource := "", success := false, errorMessage := "boom" }

/-- A batch with two tasks sharing the `(class, symbol)` key `("C", "f")`. -/
def dupBatch : List Task :=
  [mkTask 0 "C" "f" "ins1" .pending 0, mkTask 0 "C" "f" "ins2" .pending 0]

/-- A batch of two distinct keys, carrying non-default status and retries. -/
def w6batch : List Task :=
  [mkTask 0 "A" "f" "x" .pending 0, mkTask 0 "B" "f" "y" .failed 2]

/-- A claimed batch of two tasks with distinct symbols. -/
def w3tasks : List Task :=
  [mkTask 1 "C" "f" "i1" .in_flight 0, mkTask 2 "C" "g" "i2" .in_flight 0]

/-- The store those two tasks were claimed from. -/
def w3s : Store := { rows := w3tasks, nextId := 3 }

/-- The claimed copy / row of task 1 before outcome application. -/
def w3r0 : Task := mkTask 1 "C" "f" "i1" .in_flight 0

/-- Row 1 after the successful outcome completed it at instant 5. -/
def w3r1 : Task :=
  { w3r0 with status := TaskStatus.completed, decompiledSource := some "src", updatedAt := 5 }

/-- A reply completing symbol `f`. -/
def w3rs1 : List DecompiledResult :=
  [{ symbolName := "f", decompiledSource := "src", success := true, errorMessage := "" }]

/-- A later reply part failing symbol `g`. -/
def w3rs2 : List DecompiledResult :=
  [{ symbolName := "g", decompiledSource := "", success := false, errorMessage := "nope" }]

/-- A claimed batch whose second task has exhausted its retries. -/
def w4tasks : List Task :=
  [mkTask 1 "C" "f" "a" .in_flight 0, mkTask 2 "C" "g" "b" .in_flight 3]

/-- The store those two tasks live in. -/
def w4s : Store := { rows := w4tasks, nextId := 3 }

/-- A store with one pending, one in-flight and one completed row. -/
def resetW : Store :=
  { rows := [mkTask 1 "A" "p" "i" .pending 0,
             mkTask 2 "A" "q" "j" .in_flight 1,
             mkTask 3 "B" "r" "k" .completed 0],
    nextId := 4 }

/-- An input task carrying non-default values in every ignored field. -/
def w10task : Task :=
  { id := 99, className := "K", symbolName := "g", assemblyCode := "mov",
    status := .completed, retries := 7, decompiledSource := some "junk",
    errorMessage := some "stale", createdAt := 3, updatedAt := 4 }

/-- A semantic-failure outcome for symbol `g`. -/
def w5o : DecompiledResult :=
  { symbolName := "g", decompiledSource := "", success := false, errorMessage := "nope" }

/-! ## Helper lemmas about the store operations -/

/-- A by-id update with an id-preserving row function acts on `rowById` as
an `Option.map` at the updated id and is invisible at every other id. -/
theorem rowById_updById (i j : Nat) (f : Task → Task) (hf : ∀ r, (f r).id = r.id)
    (s : Store) :
    rowById (updById i f s) j =
      if j = i then (rowById s i).map f else rowById s j := by
  rcases s with ⟨rows, nid⟩
  simp only [rowById, updById, List.find?_map]
  have hpred : (fun r => decide (r.id = j)) ∘ (fun r => if r.id = i then f r else r) =
      fun r => decide (r.id = j) := by
    funext r
    by_cases h : r.id = i
    · simp [h, hf]
    · simp [h]
  rw [hpred]
  by_cases hji : j = i
  · subst hji
    cases h : List.find? (fun r => decide (r.id = j)) rows with
    | none => simp
    | some r =>
      have hr : r.id = j := by simpa using List.find?_some h
      simp [hr]
  · cases h : List.find? (fun r => decide (r.id = j)) rows with
    | none => simp [hji]
    | some r =>
      have hr : r.id = j := by simpa using List.find?_some h
      have : ¬ r.id = i := by omega
      simp [hji, this]

/-- Effect on `rowById` of `UpdateTaskFailureStore`. -/
theorem rowById_failure (now tid : Nat) (msg : String) (rc : Nat) (s : Store) (j : Nat) :
    rowById (UpdateTaskFailureStore now tid msg rc s) j =
      if j = tid then
        (rowById s tid).map (fun r => { r with status := TaskStatus.failed,
                                               errorMessage := some msg,
                                               retries := rc, updatedAt := now })
      else rowById s j := by
  apply rowById_updById
  intro r; rfl

/-- Effect on `rowById` of `UpdateTaskSuccessStore`. -/
theorem rowById_success (now tid : Nat) (src : String) (s : Store) (j : Nat) :
    rowById (UpdateTaskSuccessStore now tid src s) j =
      if j = tid then
        (rowById s tid).map (fun r => { r with status := TaskStatus.completed,
                                               decompiledSource := some src,
                                               updatedAt := now })
      else rowById s j := by
  apply rowById_updById
  intro r; rfl

/-- Auxiliary characterization of the task-map fold for any seed map. -/
theorem buildTaskMap_aux (tasks : List Task) (sym : String) (t : Task) :
    ∀ m : String → Option Task,
      List.foldl (fun m t => fun sym => if sym = t.symbolName then some t else m sym)
        m tasks sym = some t →
      (sym = t.symbolName ∧ t ∈ tasks) ∨ m sym = some t := by
  induction tasks with
  | nil => intro m hm; exact Or.inr hm
  | cons u us ih =>
    intro m hm
    have hm' : List.foldl
        (fun m t => fun sym => if sym = t.symbolName then some t else m sym)
        (fun sym => if sym = u.symbolName then some u else m sym) us sym = some t := hm
    rcases ih _ hm' with h1 | h1
    · exact Or.inl ⟨h1.1, List.mem_cons_of_mem _ h1.2⟩
    · by_cases hs : sym = u.symbolName
      · simp only [hs, if_pos rfl] at h1
        cases h1
        exact Or.inl ⟨hs, List.mem_cons_self _ _⟩
      · simp only [if_neg hs] at h1
        exact Or.inr h1

/-- Whatever the task map yields is a task of the batch carrying the
looked-up symbol name. -/
theorem buildTaskMap_some (tasks : List Task) (sym : String) (t : Task)
    (h : buildTaskMap tasks sym = some t) :
    sym = t.symbolName ∧ t ∈ tasks := by
  rcases buildTaskMap_aux tasks sym t (fun _ => none) h with h1 | h1
  · exact h1
  · simp at h1

/-- Equation lemma: an outcome whose symbol is not in the task map leaves
the store unchanged. -/
theorem applyOutcome_none (now : Nat) (tm : String → Option Task) (s : Store)
    (o : DecompiledResult) (h : tm o.symbolName = none) :
    applyOutcome now tm s o = s := by
  unfold applyOutcome
  rw [h]

/-- Equation lemma: an outcome whose symbol resolves to a task updates that
task's row according to the success flag. -/
theorem applyOutcome_some (now : Nat) (tm : String → Option Task) (s : Store)
    (o : DecompiledResult) (t : Task) (h : tm o.symbolName = some t) :
    applyOutcome now tm s o =
      if o.success then UpdateTaskSuccessStore now t.id o.decompiledSource s
      else UpdateTaskFailureStore now t.id o.errorMessage t.retries s := by
  unfold applyOutcome
  rw [h]

/-- A result-loop pass leaves any id untouched by all of its outcomes
unchanged. -/
theorem foldl_applyOutcome_untouched (now : Nat) (tm : String → Option Task)
    (rs : List DecompiledResult) (s : Store) (i : Nat)
    (h : ∀ o ∈ rs, ∀ t, tm o.symbolName = some t → t.id ≠ i) :
    rowById (rs.foldl (applyOutcome now tm) s) i = rowById s i := by
  induction rs generalizing s with
  | nil => rfl
  | cons o os ih =>
    have hstep : rowById (applyOutcome now tm s o) i = rowById s i := by
      cases hlook : tm o.symbolName with
      | none => rw [applyOutcome_none now tm s o hlook]
      | some t =>
        have hne : t.id ≠ i := h o (List.mem_cons_self _ _) t hlook
        rw [applyOutcome_some now tm s o t hlook]
        by_cases hs : o.success
        · rw [if_pos hs, rowById_success, if_neg (by omega)]
        · rw [if_neg hs, rowById_failure, if_neg (by omega)]
    calc rowById ((o :: os).foldl (applyOutcome now tm) s) i
        = rowById (os.foldl (applyOutcome now tm) (applyOutcome now tm s o)) i := rfl
      _ = rowById (applyOutcome now tm s o) i :=
          ih _ (fun o' ho' => h o' (List.mem_cons_of_mem _ ho'))
      _ = rowById s i := hstep

/-- A transport-failure pass leaves any id not belonging to the batch
unchanged. -/
theorem applyTransportFailure_untouched (now : Nat) (msg : String) (R : Nat)
    (tasks : List Task) (s : Store) (i : Nat)
    (h : ∀ u ∈ tasks, u.id ≠ i) :
    rowById (applyTransportFailure now msg R tasks s) i = rowById s i := by
  induction tasks generalizing s with
  | nil => rfl
  | cons u us ih =>
    have hu : u.id ≠ i := h u (List.mem_cons_self _ _)
    have hrw : applyTransportFailure now msg R (u :: us) s =
        applyTransportFailure now msg R us
          (if u.retries < R then UpdateTaskFailureStore now u.id msg (u.retries + 1) s
           else UpdateTaskFailureStore now u.id "Max retries exceeded" u.retries s) := rfl
    rw [hrw, ih _ (fun v hv => h v (List.mem_cons_of_mem _ hv))]
    by_cases hR : u.retries < R
    · rw [if_pos hR, rowById_failure, if_neg (by omega)]
    · rw [if_neg hR, rowById_failure, if_neg (by omega)]

/-- One unfolding step of `AddTasks`. -/
theorem addTasks_cons (now : Nat) (t : Task) (ts : List Task) (s : Store) :
    AddTasks now (t :: ts) s = AddTasks now ts (insertIgnore now t s) := rfl

/-- Seeding only appends: every pre-existing row is preserved unchanged,
in place. -/
theorem addTasks_append (now : Nat) (tasks : List Task) (s : Store) :
    ∃ extra, (AddTasks now tasks s).rows = s.rows ++ extra := by
  induction tasks generalizing s with
  | nil => exact ⟨[], by simp [AddTasks]⟩
  | cons t ts ih =>
    rcases ih (insertIgnore now t s) with ⟨extra, hextra⟩
    by_cases hk : hasKey s.rows (keyOf t)
    · refine ⟨extra, ?_⟩
      rw [addTasks_cons, hextra]
      simp [insertIgnore, hk]
    · refine ⟨freshRow now t s :: extra, ?_⟩
      rw [addTasks_cons, hextra]
      simp [insertIgnore, hk]

theorem hasKey_append (rows extra : List Task) (k : String × String) :
    hasKey (rows ++ extra) k = (hasKey rows k || hasKey extra k) := by
  simp [hasKey, List.any_append]

/-- Seeding a batch every key of which is already present is a no-op. -/
theorem addTasks_all_dup (now : Nat) (tasks : List Task) (s : Store)
    (h : ∀ t ∈ tasks, hasKey s.rows (keyOf t) = true) :
    AddTasks now tasks s = s := by
  induction tasks with
  | nil => rfl
  | cons t ts ih =>
    have h1 : insertIgnore now t s = s := by
      simp [insertIgnore, h t (List.mem_cons_self _ _)]
    rw [addTasks_cons, h1]
    exact ih (fun u hu => h u (List.mem_cons_of_mem _ hu))

/-- Seeding a batch of pairwise-distinct keys none of which is present
inserts exactly one row per task and makes every key present. -/
theorem addTasks_fresh (now : Nat) (tasks : List Task) (s : Store)
    (hnd : (tasks.map keyOf).Nodup)
    (h : ∀ t ∈ tasks, hasKey s.rows (keyOf t) = false) :
    (AddTasks now tasks s).rows.length = s.rows.length + tasks.length ∧
    ∀ t ∈ tasks, hasKey (AddTasks now tasks s).rows (keyOf t) = true := by
  induction tasks generalizing s with
  | nil => simp [AddTasks]
  | cons t ts ih =>
    have hk : hasKey s.rows (keyOf t) = false := h t (List.mem_cons_self _ _)
    have hins : insertIgnore now t s =
        ⟨s.rows ++ [freshRow now t s], s.nextId + 1⟩ := by
      simp [insertIgnore, hk]
    have hnd0 : (∀ x ∈ ts, ¬ keyOf x = keyOf t) ∧ (ts.map keyOf).Nodup := by
      simpa using hnd
    have hne : ∀ u ∈ ts, ¬ keyOf u = keyOf t := hnd0.1
    have h' : ∀ u ∈ ts, hasKey (insertIgnore now t s).rows (keyOf u) = false := by
      intro u hu
      rw [hins]
      show hasKey (s.rows ++ [freshRow now t s]) (keyOf u) = false
      rw [hasKey_append]
      have h1 := h u (List.mem_cons_of_mem _ hu)
      have h2 : hasKey [freshRow now t s] (keyOf u) = false := by
        have := hne u hu
        simp only [hasKey, keyOf, List.any_cons, List.any_nil, Bool.or_false,
          freshRow, decide_eq_false_iff_not]
        intro hc
        exact this (by simp [keyOf, Prod.ext_iff, hc.1, hc.2])
      rw [h1, h2]
      rfl
    rcases ih (insertIgnore now t s) hnd0.2 h' with ⟨hlen, hall⟩
    constructor
    · rw [addTasks_cons, hlen, hins]
      simp only [List.length_append, List.length_cons, List.length_nil]
      omega
    · intro u hu
      rcases List.mem_cons.mp hu with heq | hu'
      · rw [heq]
        rcases addTasks_append now ts (insertIgnore now t s) with ⟨extra, hex⟩
        rw [addTasks_cons, hex, hins]
        show hasKey ((s.rows ++ [freshRow now t s]) ++ extra) (keyOf t) = true
        rw [hasKey_append, hasKey_append]
        have h2 : hasKey [freshRow now t s] (keyOf t) = true := by
          simp [hasKey, keyOf, freshRow]
        rw [h2]
        simp
      · exact hall u hu'

/-- A key reported absent has no row. -/
theorem rowByKey_eq_none (rows : List Task) (k : String × String)
    (h : hasKey rows k = false) : rowByKey rows k = none := by
  rw [rowByKey, List.find?_eq_none]
  intro x hx hpx
  have htrue : hasKey rows k = true := by
    rw [hasKey, List.any_eq_true]
    exact ⟨x, hx, hpx⟩
  rw [h] at htrue
  cases htrue

/-- If some row of the list satisfies the predicate, `find?` succeeds and
its result satisfies it. -/
theorem find?_mem_isSome {α} (p : α → Bool) (l : List α) (a : α)
    (ha : a ∈ l) (hpa : p a = true) :
    ∃ b, l.find? p = some b ∧ p b = true := by
  cases hb : l.find? p with
  | none =>
    rw [List.find?_eq_none] at hb
    exact absurd hpa (hb a ha)
  | some b => exact ⟨b, rfl, List.find?_some hb⟩

/-- The claimed batch's ids are exactly the pending selection's ids. -/
theorem fetch_fst_ids (now n : Nat) (s : Store) :
    (FetchPendingBatch now n s).1.map (fun t => t.id) =
      (pendingBatch s n).map (fun t => t.id) := by
  unfold FetchPendingBatch
  by_cases hp : (pendingBatch s n).isEmpty = true
  · have hnil : pendingBatch s n = [] := by
      simpa [List.isEmpty_iff] using hp
    simp [hp, hnil]
  · simp only [hp, Bool.false_eq_true, if_false, List.map_map]
    rfl

/-- The store after a claim: untouched when the selection is empty,
otherwise exactly the selected ids are flipped to in_flight with a fresh
`updated_at`. -/
theorem fetch_snd_spec (now n : Nat) (s : Store) :
    (pendingBatch s n = [] → (FetchPendingBatch now n s).2 = s) ∧
    (pendingBatch s n ≠ [] → (FetchPendingBatch now n s).2.rows =
      s.rows.map (fun r =>
        if r.id ∈ (pendingBatch s n).map (fun t => t.id)
        then { r with status := TaskStatus.in_flight, updatedAt := now }
        else r)) := by
  constructor
  · intro h
    unfold FetchPendingBatch
    simp [h]
  · intro h
    unfold FetchPendingBatch
    have hp : (pendingBatch s n).isEmpty = false := by
      cases hq : pendingBatch s n with
      | nil => exact absurd hq h
      | cons a l => rfl
    simp [hp]

/-- Counting after a reset: every in_flight row becomes pending, nothing
else moves. -/
theorem reset_counts_aux (rows : List Task) :
    ((rows.map (fun r => if r.status = TaskStatus.in_flight
        then { r with status := TaskStatus.pending } else r)).countP
          (fun r => r.status = TaskStatus.pending)
      = rows.countP (fun r => r.status = TaskStatus.pending)
        + rows.countP (fun r => r.status = TaskStatus.in_flight)) ∧
    ((rows.map (fun r => if r.status = TaskStatus.in_flight
        then { r with status := TaskStatus.pending } else r)).countP
          (fun r => r.status = TaskStatus.in_flight) = 0) := by
  induction rows with
  | nil => simp
  | cons r rs ih =>
    rcases ih with ⟨ih1, ih2⟩
    cases hst : r.status <;>
      simp [List.countP_cons, hst, ih1, ih2] <;> omega

/-- A successful insert loop performs exactly the full batch insert. -/
theorem addLoop_ok (now : Nat) (failAt : Nat → Bool) (tasks : List Task) :
    ∀ (i : Nat) (s st : Store), addLoop now failAt tasks i s = .ok st →
      st = AddTasks now tasks s := by
  induction tasks with
  | nil =>
    intro i s st h
    simp only [addLoop] at h
    cases h
    rfl
  | cons t ts ih =>
    intro i s st h
    simp only [addLoop] at h
    by_cases hf : failAt i
    · rw [if_pos hf] at h
      cases h
    · rw [if_neg hf] at h
      rw [addTasks_cons]
      exact ih _ _ _ h

/-! ## Claim theorems -/

/-- C4: when the model call fails for a claimed batch, the worker marks
every task of the batch FAILED: a task with retries < R is failed with the
call's error message and retry count retries + 1; a task with
retries ≥ R is failed with error "Max retries exceeded" and its retry
count unchanged.  (The batch holds distinct row ids and each claimed task
has a row.) -/
theorem transportFailure_marks_batch_failed (now : Nat) (errMsg : String) (R : Nat)
    (t : Task) :
    ∀ (tasks : List Task) (s : Store) (r : Task),
      (tasks.map (fun u => u.id)).Nodup → t ∈ tasks → rowById s t.id = some r →
      rowById (applyTransportFailure now errMsg R tasks s) t.id =
        some { r with
          status := TaskStatus.failed,
          errorMessage := some (if t.retries < R then errMsg else "Max retries exceeded"),
          retries := if t.retries < R then t.retries + 1 else t.retries,
          updatedAt := now } := by
  intro tasks
  induction tasks with
  | nil => intro s r _ ht _; cases ht
  | cons u us ih =>
    intro s r hnd ht hr
    have hnd' : ¬ u.id ∈ us.map (fun v => v.id) ∧ (us.map (fun v => v.id)).Nodup := by
      simpa [List.nodup_cons] using hnd
    have hrw : applyTransportFailure now errMsg R (u :: us) s =
        applyTransportFailure now errMsg R us
          (if u.retries < R then UpdateTaskFailureStore now u.id errMsg (u.retries + 1) s
           else UpdateTaskFailureStore now u.id "Max retries exceeded" u.retries s) := rfl
    rcases List.mem_cons.mp ht with heq | hmem
    · have hvne : ∀ v ∈ us, v.id ≠ t.id := by
        intro v hv hvid
        have h1 : v.id ∈ us.map (fun v => v.id) := List.mem_map_of_mem _ hv
        rw [hvid, heq] at h1
        exact hnd'.1 h1
      have hstep : rowById
          (if u.retries < R then UpdateTaskFailureStore now u.id errMsg (u.retries + 1) s
           else UpdateTaskFailureStore now u.id "Max retries exceeded" u.retries s) t.id =
          some { r with
            status := TaskStatus.failed,
            errorMessage := some (if t.retries < R then errMsg else "Max retries exceeded"),
            retries := if t.retries < R then t.retries + 1 else t.retries,
            updatedAt := now } := by
        rw [heq] at hr ⊢
        by_cases hR : u.retries < R
        · simp only [if_pos hR]
          rw [rowById_failure, if_pos rfl, hr]
          rfl
        · simp only [if_neg hR]
          rw [rowById_failure, if_pos rfl, hr]
          rfl
      rw [hrw, applyTransportFailure_untouched now errMsg R us _ t.id hvne, hstep]
    · have hne : ¬ t.id = u.id := by
        intro hvid
        have h1 : t.id ∈ us.map (fun v => v.id) := List.mem_map_of_mem _ hmem
        rw [hvid] at h1
        exact hnd'.1 h1
      have hr' : rowById
          (if u.retries < R then UpdateTaskFailureStore now u.id errMsg (u.retries + 1) s
           else UpdateTaskFailureStore now u.id "Max retries exceeded" u.retries s) t.id =
          some r := by
        by_cases hR : u.retries < R
        · simp only [if_pos hR]
          rw [rowById_failure, if_neg hne]
          exact hr
        · simp only [if_neg hR]
          rw [rowById_failure, if_neg hne]
          exact hr
      rw [hrw]
      exact ih _ r hnd'.2 hmem hr'

/-- Witness for C4: on the concrete claimed batch `w4tasks` with retry cap
3, task 2 (retries already 3) is failed with "Max retries exceeded" and an
unchanged retry count. -/
theorem transportFailure_marks_batch_failed_witness :
    (w4tasks.map (fun u => u.id)).Nodup ∧
    rowById (applyTransportFailure 7 "connection refused" 3 w4tasks w4s) 2 =
      some { mkTask 2 "C" "g" "b" .in_flight 3 with
        status := TaskStatus.failed,
        errorMessage := some "Max retries exceeded",
        retries := 3, updatedAt := 7 } :=
  ⟨by decide,
   transportFailure_marks_batch_failed 7 "connection refused" 3
     (mkTask 2 "C" "g" "b" .in_flight 3) w4tasks w4s (mkTask 2 "C" "g" "b" .in_flight 3)
     (by decide) (by decide) (by decide)⟩

/-- C5: an outcome of a successful model reply whose symbol matches no
claimed task changes no task state; an outcome whose symbol matches a
claimed task and whose ok flag is false sets that task's row to FAILED
with the outcome's error message and a retry count equal to the claimed
copy's retries (no increment). -/
theorem applyOutcome_semantic_failure (now : Nat) (tasks : List Task)
    (o : DecompiledResult) (s : Store) :
    (buildTaskMap tasks o.symbolName = none →
      applyOutcome now (buildTaskMap tasks) s o = s) ∧
    (∀ t r, buildTaskMap tasks o.symbolName = some t → o.success = false →
      rowById s t.id = some r →
      rowById (applyOutcome now (buildTaskMap tasks) s o) t.id =
        some { r with status := TaskStatus.failed,
                      errorMessage := some o.errorMessage,
                      retries := t.retries, updatedAt := now }) := by
  constructor
  · intro h
    exact applyOutcome_none now _ s o h
  · intro t r hl hs hr
    rw [applyOutcome_some now _ s o t hl, if_neg (by simp [hs]), rowById_failure,
      if_pos rfl, hr]
    rfl

/-- Witness for C5: the failed outcome `w5o` for symbol `g` marks task 2 of
`w3tasks` FAILED with error "nope" and retries still 0. -/
theorem applyOutcome_semantic_failure_witness :
    buildTaskMap w3tasks w5o.symbolName = some (mkTask 2 "C" "g" "i2" .in_flight 0) ∧
    rowById (applyOutcome 9 (buildTaskMap w3tasks) w3s w5o) 2 =
      some { mkTask 2 "C" "g" "i2" .in_flight 0 with
        status := TaskStatus.failed, errorMessage := some "nope",
        retries := 0, updatedAt := 9 } :=
  ⟨by decide,
   (applyOutcome_semantic_failure 9 w3tasks w5o w3s).2
     (mkTask 2 "C" "g" "i2" .in_flight 0) (mkTask 2 "C" "g" "i2" .in_flight 0)
     (by decide) (by decide) (by decide)⟩

/-- C7: `ResetInFlightTasks` turns every in_flight row pending and changes
nothing else: pending count grows by exactly the in_flight count, no row
stays in_flight, the table keeps its length and next id, and each row is
either untouched or touched only in its status field. -/
theorem resetInFlightTasks_spec (s : Store) :
    ((ResetInFlightTasks s).rows.countP (fun r => r.status = TaskStatus.pending)
        = s.rows.countP (fun r => r.status = TaskStatus.pending)
          + s.rows.countP (fun r => r.status = TaskStatus.in_flight)) ∧
    ((ResetInFlightTasks s).rows.countP (fun r => r.status = TaskStatus.in_flight) = 0) ∧
    ((ResetInFlightTasks s).rows.length = s.rows.length) ∧
    ((ResetInFlightTasks s).nextId = s.nextId) ∧
    (∀ i (h : i < s.rows.length) (h2 : i < (ResetInFlightTasks s).rows.length),
      (ResetInFlightTasks s).rows.get ⟨i, h2⟩ =
        if (s.rows.get ⟨i, h⟩).status = TaskStatus.in_flight
        then { s.rows.get ⟨i, h⟩ with status := TaskStatus.pending }
        else s.rows.get ⟨i, h⟩) := by
  have hrows : (ResetInFlightTasks s).rows =
      s.rows.map (fun r => if r.status = TaskStatus.in_flight
        then { r with status := TaskStatus.pending } else r) := rfl
  refine ⟨?_, ?_, ?_, rfl, ?_⟩
  · rw [hrows]
    exact (reset_counts_aux s.rows).1
  · rw [hrows]
    exact (reset_counts_aux s.rows).2
  · rw [hrows, List.length_map]
  · intro i h h2
    simp only [List.get_eq_getElem, hrows, List.getElem_map]

/-- Witness for C7 at the concrete mixed-status store `resetW`: one
in_flight row turns the pending count from 1 into 2. -/
theorem resetInFlightTasks_spec_witness :
    (ResetInFlightTasks resetW).rows.countP (fun r => r.status = TaskStatus.pending)
      = resetW.rows.countP (fun r => r.status = TaskStatus.pending)
        + resetW.rows.countP (fun r => r.status = TaskStatus.in_flight) :=
  (resetInFlightTasks_spec resetW).1

/-- C9: `formatPrompt` is total — for every batch it returns a prompt and
no error (the only fallible step, `json.MarshalIndent` on a slice of
string-field structs, cannot fail), so the worker's
prompt-serialization-failure branch never fires and the store is untouched
by the prompt stage. -/
theorem formatPrompt_total (now : Nat) (tasks : List Task) (s : Store) :
    (formatPrompt tasks).isOk = true ∧
    promptStage now tasks s = (s, some (promptPreamble ++ marshalMethods tasks)) :=
  ⟨rfl, rfl⟩

/-- C1: claim exclusivity.  `FetchPendingBatch` runs under serializable
isolation, so two concurrent claims are equivalent to the two serial
orders; in either serial order the id sets returned by the two calls are
disjoint, because the first call flips every id it returns to in_flight
and the second call selects only pending rows. -/
theorem fetchPendingBatch_exclusive (now1 now2 n m : Nat) (s : Store) (i : Nat)
    (h1 : i ∈ (FetchPendingBatch now1 n s).1.map (fun t => t.id)) :
    ¬ i ∈ (FetchPendingBatch now2 m (FetchPendingBatch now1 n s).2).1.map
        (fun t => t.id) := by
  intro h2
  rw [fetch_fst_ids] at h1 h2
  have hne : pendingBatch s n ≠ [] := by
    intro he
    rw [he] at h1
    simp at h1
  have hs1 := (fetch_snd_spec now1 n s).2 hne
  rcases List.mem_map.mp h2 with ⟨r, hrmem, hrid⟩
  have hrfil : r ∈ ((FetchPendingBatch now1 n s).2.rows.filter
      (fun r => r.status = TaskStatus.pending)) :=
    List.take_subset m _ hrmem
  rcases List.mem_filter.mp hrfil with ⟨hrrows, hrpend⟩
  rw [hs1] at hrrows
  rcases List.mem_map.mp hrrows with ⟨r0, hr0mem, hr0eq⟩
  by_cases h0 : r0.id ∈ (pendingBatch s n).map (fun t => t.id)
  · rw [if_pos h0] at hr0eq
    rw [← hr0eq] at hrpend
    simp at hrpend
  · rw [if_neg h0] at hr0eq
    rw [← hr0eq] at hrid
    rw [hrid] at h0
    exact h0 h1

/-- Witness for C1 at the four-row store of the regression test: a first
claim of 2 returns ids containing 1; the second claim's ids do not. -/
theorem fetchPendingBatch_exclusive_witness :
    1 ∈ (FetchPendingBatch 0 2 testStore4).1.map (fun t => t.id) ∧
    ¬ 1 ∈ (FetchPendingBatch 0 2 (FetchPendingBatch 0 2 testStore4).2).1.map
        (fun t => t.id) :=
  ⟨by decide, fetchPendingBatch_exclusive 0 0 2 2 testStore4 1 (by decide)⟩

/-- C2: `FetchPendingBatch` returns the empty batch and leaves the store
untouched when no pending rows exist (and, being a total function, never
blocks); and for every driver-failure oracle the call is atomic — a failed
call leaves every status unchanged, a successful call leaves every
returned task persisted as in_flight. -/
theorem fetchPendingBatch_empty_and_atomic (now n : Nat) (s : Store) :
    (s.rows.filter (fun r => r.status = TaskStatus.pending) = [] →
      FetchPendingBatch now n s = ([], s)) ∧
    (∀ bF qF uF cF,
      (∀ e, (FetchPendingBatchE bF qF uF cF now n s).1 = Except.error e →
        (FetchPendingBatchE bF qF uF cF now n s).2 = s) ∧
      (∀ ts, (FetchPendingBatchE bF qF uF cF now n s).1 = Except.ok ts →
        ∀ t ∈ ts, ∃ r, rowById ((FetchPendingBatchE bF qF uF cF now n s).2) t.id = some r ∧
          r.status = TaskStatus.in_flight)) := by
  constructor
  · intro h
    unfold FetchPendingBatch
    have hp : pendingBatch s n = [] := by
      rw [pendingBatch, h, List.take_nil]
    simp [hp]
  · intro bF qF uF cF
    by_cases hbF : bF = true
    · subst hbF
      constructor
      · intro e _
        rfl
      · intro ts hts
        simp [FetchPendingBatchE] at hts
    · have hbF' : bF = false := by
        cases bF
        · rfl
        · exact absurd rfl hbF
      subst hbF'
      by_cases hqF : qF = true
      · subst hqF
        constructor
        · intro e _
          rfl
        · intro ts hts
          simp [FetchPendingBatchE] at hts
      · have hqF' : qF = false := by
          cases qF
          · rfl
          · exact absurd rfl hqF
        subst hqF'
        by_cases hpe : (pendingBatch s n).isEmpty = true
        · constructor
          · intro e he
            simp [FetchPendingBatchE, hpe] at he
          · intro ts hts t htmem
            simp [FetchPendingBatchE, hpe] at hts
            rw [hts] at htmem
            exact absurd htmem (List.not_mem_nil t)
        · have hpe' : (pendingBatch s n).isEmpty = false := by
            cases hh : (pendingBatch s n).isEmpty
            · rfl
            · exact absurd hh hpe
          by_cases huF : uF = true
          · subst huF
            constructor
            · intro e _
              simp [FetchPendingBatchE, hpe']
            · intro ts hts
              simp [FetchPendingBatchE, hpe'] at hts
          · have huF' : uF = false := by
              cases uF
              · rfl
              · exact absurd rfl huF
            subst huF'
            by_cases hcF : cF = true
            · subst hcF
              constructor
              · intro e _
                simp [FetchPendingBatchE, hpe']
              · intro ts hts
                simp [FetchPendingBatchE, hpe'] at hts
            · have hcF' : cF = false := by
                cases cF
                · rfl
                · exact absurd rfl hcF
              subst hcF'
              constructor
              · intro e he
                simp [FetchPendingBatchE, hpe'] at he
              · intro ts hts t htmem
                have hts' : ts = (FetchPendingBatch now n s).1 := by
                  simp [FetchPendingBatchE, hpe'] at hts
                  exact hts.symm
                have hsnd : (FetchPendingBatchE false false false false now n s).2 =
                    (FetchPendingBatch now n s).2 := by
                  simp [FetchPendingBatchE, hpe']
                rw [hts'] at htmem
                rw [hsnd]
                -- t comes from the scanned selection
                have hne : pendingBatch s n ≠ [] := by
                  intro hh
                  rw [hh] at hpe'
                  simp at hpe'
                have hfst : (FetchPendingBatch now n s).1 =
                    (pendingBatch s n).map scannedTask := by
                  unfold FetchPendingBatch
                  simp [hpe']
                rw [hfst] at htmem
                rcases List.mem_map.mp htmem with ⟨p, hpmem, hpeq⟩
                have hpid : t.id = p.id := by
                  rw [← hpeq]
                  rfl
                have hprows : p ∈ s.rows := by
                  have := List.take_subset n _ hpmem
                  exact (List.mem_filter.mp this).1
                have hidsel : p.id ∈ (pendingBatch s n).map (fun t => t.id) :=
                  List.mem_map_of_mem _ hpmem
                have hs2 := (fetch_snd_spec now n s).2 hne
                rw [rowById, hs2, List.find?_map]
                have hpred : ((fun (r : Task) => decide (r.id = t.id)) ∘
                    (fun (r : Task) => if r.id ∈ (pendingBatch s n).map (fun t => t.id)
                      then { r with status := TaskStatus.in_flight, updatedAt := now }
                      else r)) = (fun (r : Task) => decide (r.id = t.id)) := by
                  funext r
                  simp only [Function.comp_apply]
                  by_cases hin : r.id ∈ (pendingBatch s n).map (fun t => t.id)
                  · rw [if_pos hin]
                  · rw [if_neg hin]
                rw [hpred]
                rcases find?_mem_isSome (fun r => decide (r.id = t.id)) s.rows p hprows
                    (by simp [hpid]) with ⟨b, hb, hpb⟩
                rw [hb]
                have hbid : b.id = t.id := by simpa using hpb
                have hbin : b.id ∈ (pendingBatch s n).map (fun t => t.id) := by
                  rw [hbid, hpid]
                  exact hidsel
                refine ⟨_, rfl, ?_⟩
                simp [hbin]

/-- Witness for C2: on the empty store (no pending rows) the claim returns
the empty batch and the untouched store. -/
theorem fetchPendingBatch_empty_and_atomic_witness :
    Store.empty.rows.filter (fun r => r.status = TaskStatus.pending) = [] ∧
    FetchPendingBatch 0 10 Store.empty = ([], Store.empty) :=
  ⟨rfl, (fetchPendingBatch_empty_and_atomic 0 10 Store.empty).1 rfl⟩

/-- Counterexample to C3 as stated: the store operations have no status
guard and the worker does not deduplicate reply outcomes, so a reply with
two outcomes for one symbol (success then failure) mutates a row after it
entered COMPLETED — its status becomes FAILED and its error field "boom". -/
theorem processResults_mutates_completed :
    (rowById (processResults 1 cexBatch [cexOk] cexStoreIF) 1).map (fun r => r.status)
      = some TaskStatus.completed ∧
    processResults 1 cexBatch [cexOk, cexBad] cexStoreIF
      = processResults 1 cexBatch [cexBad] (processResults 1 cexBatch [cexOk] cexStoreIF) ∧
    (rowById (processResults 1 cexBatch [cexBad]
        (processResults 1 cexBatch [cexOk] cexStoreIF)) 1).map (fun r => r.status)
      = some TaskStatus.failed ∧
    (rowById (processResults 1 cexBatch [cexBad]
        (processResults 1 cexBatch [cexOk] cexStoreIF)) 1).map (fun r => r.errorMessage)
      = some (some "boom") :=
  ⟨by decide, rfl, by decide, by decide⟩

/-- C3 (amended): within one outcome application whose reply carries at
most one outcome per symbol (and a batch of distinct row ids), a row that
enters COMPLETED is not mutated by the remaining outcomes. -/
theorem processResults_terminal_stable (now1 now2 : Nat) (tasks : List Task)
    (rs1 rs2 : List DecompiledResult) (s : Store) (i : Nat) (r0 r1 : Task)
    (hsym : ((rs1 ++ rs2).map (fun o => o.symbolName)).Nodup)
    (hids : (tasks.map (fun t => t.id)).Nodup)
    (h0 : rowById s i = some r0) (h0c : ¬ r0.status = TaskStatus.completed)
    (h1 : rowById (processResults now1 tasks rs1 s) i = some r1)
    (h1c : r1.status = TaskStatus.completed) :
    rowById (processResults now2 tasks rs2 (processResults now1 tasks rs1 s)) i
      = some r1 := by
  have hdis : (rs1.map (fun o => o.symbolName)).Disjoint
      (rs2.map (fun o => o.symbolName)) := by
    rw [List.map_append] at hsym
    exact (List.nodup_append.mp hsym).2.2
  by_cases htouch : ∀ o ∈ rs1, ∀ t, buildTaskMap tasks o.symbolName = some t → ¬ t.id = i
  · have h1' : rowById (rs1.foldl (applyOutcome now1 (buildTaskMap tasks)) s) i
        = some r1 := h1
    rw [foldl_applyOutcome_untouched now1 (buildTaskMap tasks) rs1 s i
      (fun o ho t htl hti => htouch o ho t htl hti), h0] at h1'
    injection h1' with h1''
    rw [h1''] at h0c
    exact absurd h1c h0c
  · push_neg at htouch
    rcases htouch with ⟨o1, ho1, t1, ht1, ht1i⟩
    have hb1 := buildTaskMap_some tasks o1.symbolName t1 ht1
    have huntouched : ∀ o ∈ rs2, ∀ t, buildTaskMap tasks o.symbolName = some t →
        ¬ t.id = i := by
      intro o2 ho2 t2 ht2 ht2i
      have hb2 := buildTaskMap_some tasks o2.symbolName t2 ht2
      have ht12 : t1 = t2 :=
        List.inj_on_of_nodup_map hids hb1.2 hb2.2 (by rw [ht1i, ht2i])
      have hsymeq : o1.symbolName = o2.symbolName := by
        rw [hb1.1, ht12, ← hb2.1]
      refine hdis (List.mem_map_of_mem _ ho1) ?_
      rw [hsymeq]
      exact List.mem_map_of_mem _ ho2
    have hfinal : rowById (processResults now2 tasks rs2
        (processResults now1 tasks rs1 s)) i
        = rowById (processResults now1 tasks rs1 s) i :=
      foldl_applyOutcome_untouched now2 (buildTaskMap tasks) rs2 _ i
        (fun o ho t htl hti => huntouched o ho t htl hti)
    rw [hfinal, h1]

/-- Witness for the amended C3: task 1 of `w3tasks` is completed by the
reply `w3rs1` and is untouched by the later reply part `w3rs2`, which
addresses the other symbol. -/
theorem processResults_terminal_stable_witness :
    rowById w3s 1 = some w3r0 ∧
    rowById (processResults 5 w3tasks w3rs1 w3s) 1 = some w3r1 ∧
    rowById (processResults 6 w3tasks w3rs2 (processResults 5 w3tasks w3rs1 w3s)) 1
      = some w3r1 :=
  ⟨by decide, by decide,
   processResults_terminal_stable 5 6 w3tasks w3rs1 w3rs2 w3s 1 w3r0 w3r1
     (by decide) (by decide) (by decide) (by decide) (by decide) (by decide)⟩

/-- Counterexample to C6 as stated: a batch whose two tasks share the
`(class, symbol)` key `("C", "f")` has length 2, yet seeding it twice into
an empty store leaves 1 row, not `|batch|`. -/
theorem addTasks_dup_batch_cex :
    dupBatch.length = 2 ∧
    (AddTasks 0 dupBatch (AddTasks 0 dupBatch Store.empty)).rows.length = 1 :=
  ⟨rfl, by decide⟩

/-- C6 (amended): for a batch of pairwise-distinct `(class, symbol)` keys,
seeding an empty store twice leaves exactly `|batch|` rows; seeding never
touches pre-existing rows (it only appends); and with the driver-failure
oracle the operation is atomic — success performs the whole batch insert,
failure leaves the store exactly as it was. -/
theorem addTasks_dedup_spec (now1 now2 : Nat) (batch : List Task) (s : Store) :
    ((batch.map keyOf).Nodup →
      (AddTasks now2 batch (AddTasks now1 batch Store.empty)).rows.length
        = batch.length) ∧
    (∃ extra, (AddTasks now1 batch s).rows = s.rows ++ extra) ∧
    (∀ failAt commitFails,
      ((AddTasksE now1 failAt commitFails batch s).2 = none →
        (AddTasksE now1 failAt commitFails batch s).1 = AddTasks now1 batch s) ∧
      ((AddTasksE now1 failAt commitFails batch s).2.isSome = true →
        (AddTasksE now1 failAt commitFails batch s).1 = s)) := by
  refine ⟨?_, addTasks_append now1 batch s, ?_⟩
  · intro hnd
    have hfree : ∀ t ∈ batch, hasKey Store.empty.rows (keyOf t) = false := by
      intro t _
      rfl
    rcases addTasks_fresh now1 batch Store.empty hnd hfree with ⟨hlen, hall⟩
    rw [addTasks_all_dup now2 batch _ hall, hlen]
    simp [Store.empty]
  · intro failAt commitFails
    unfold AddTasksE
    cases hLoop : addLoop now1 failAt batch 0 s with
    | error e =>
      constructor
      · intro h
        simp at h
      · intro _
        rfl
    | ok st =>
      by_cases hc : commitFails = true
      · subst hc
        constructor
        · intro h
          simp at h
        · intro _
          rfl
      · have hc' : commitFails = false := by
          cases commitFails
          · rfl
          · exact absurd rfl hc
        subst hc'
        constructor
        · intro _
          simpa using addLoop_ok now1 failAt batch 0 s st hLoop
        · intro h
          simp at h

/-- Witness for the amended C6: the two-key batch `w6batch`, seeded twice
from empty, leaves exactly two rows. -/
theorem addTasks_dedup_spec_witness :
    (w6batch.map keyOf).Nodup ∧
    (AddTasks 1 w6batch (AddTasks 0 w6batch Store.empty)).rows.length = w6batch.length :=
  ⟨by decide, (addTasks_dedup_spec 0 1 w6batch Store.empty).1 (by decide)⟩

/-- Counterexample to C8 as stated: id 5 references no row of the one-row
store, yet `UpdateTaskSuccess` reports success (no error of any kind) and
changes nothing — it never checks the number of affected rows. -/
theorem updateTaskSuccess_missing_id_no_error :
    rowById cexStoreIF 5 = none ∧
    UpdateTaskSuccessE false 7 5 "src" cexStoreIF = (cexStoreIF, none) :=
  ⟨by decide, by decide⟩

/-- C8 (amended): `UpdateTaskSuccess` sets the identified row to COMPLETED
with the given source and a fresh timestamp and touches no other row; a
call whose id references no row returns success and changes nothing (no
UnknownTask error is produced). -/
theorem updateTaskSuccess_spec (now taskID : Nat) (src : String) (s : Store) :
    ((UpdateTaskSuccessE false now taskID src s).2 = none) ∧
    ((∀ r ∈ s.rows, ¬ r.id = taskID) →
      (UpdateTaskSuccessE false now taskID src s).1 = s) ∧
    (∀ r, rowById s taskID = some r →
      rowById ((UpdateTaskSuccessE false now taskID src s).1) taskID =
        some { r with status := TaskStatus.completed, decompiledSource := some src,
                      updatedAt := now }) ∧
    (∀ j, ¬ j = taskID →
      rowById ((UpdateTaskSuccessE false now taskID src s).1) j = rowById s j) := by
  have hfst : (UpdateTaskSuccessE false now taskID src s).1 =
      UpdateTaskSuccessStore now taskID src s := rfl
  refine ⟨rfl, ?_, ?_, ?_⟩
  · intro h
    rw [hfst]
    show ({ s with rows := s.rows.map (fun r => if r.id = taskID
        then { r with status := TaskStatus.completed, decompiledSource := some src,
                      updatedAt := now } else r) } : Store) = s
    have hmap : s.rows.map (fun r => if r.id = taskID
        then { r with status := TaskStatus.completed, decompiledSource := some src,
                      updatedAt := now } else r) = s.rows := by
      have hpt : ∀ r ∈ s.rows, (if r.id = taskID
          then { r with status := TaskStatus.completed, decompiledSource := some src,
                        updatedAt := now } else r) = r := by
        intro r hr
        rw [if_neg (h r hr)]
      calc s.rows.map (fun r => if r.id = taskID
              then { r with status := TaskStatus.completed, decompiledSource := some src,
                            updatedAt := now } else r)
          = s.rows.map (fun r => r) := List.map_congr_left hpt
        _ = s.rows := List.map_id' s.rows
    rw [hmap]
  · intro r hr
    rw [hfst, rowById_success, if_pos rfl, hr]
    rfl
  · intro j hj
    rw [hfst, rowById_success, if_neg hj]

/-- Witness for the amended C8: completing existing row 2 of `w3s` records
the source and timestamp. -/
theorem updateTaskSuccess_spec_witness :
    rowById w3s 2 = some (mkTask 2 "C" "g" "i2" .in_flight 0) ∧
    rowById ((UpdateTaskSuccessE false 9 2 "int f;" w3s).1) 2 =
      some { mkTask 2 "C" "g" "i2" .in_flight 0 with
        status := TaskStatus.completed, decompiledSource := some "int f;",
        updatedAt := 9 } :=
  ⟨by decide,
   (updateTaskSuccess_spec 9 2 "int f;" w3s).2.2.1 (mkTask 2 "C" "g" "i2" .in_flight 0)
     (by decide)⟩

/-- C10: every task actually inserted by `AddTasks` is stored with status
pending, retries 0 and NULL source and error, timestamps set at insert
time; only its class, symbol and assembly are taken from the input record,
whatever status, retries, source or error that record carries. -/
theorem addTasks_inserts_defaults (now : Nat) (t : Task) :
    ∀ (tasks : List Task) (s : Store),
      (tasks.map keyOf).Nodup → t ∈ tasks → hasKey s.rows (keyOf t) = false →
      ∃ i, rowByKey (AddTasks now tasks s).rows (keyOf t) =
        some { id := i, className := t.className, symbolName := t.symbolName,
               assemblyCode := t.assemblyCode, status := TaskStatus.pending,
               retries := 0, decompiledSource := none, errorMessage := none,
               createdAt := now, updatedAt := now } := by
  intro tasks
  induction tasks with
  | nil =>
    intro s _ ht _
    cases ht
  | cons u us ih =>
    intro s hnd ht hnew
    have hnd0 : (∀ x ∈ us, ¬ keyOf x = keyOf u) ∧ (us.map keyOf).Nodup := by
      simpa using hnd
    rcases List.mem_cons.mp ht with heq | hmem
    · rw [heq] at hnew ⊢
      have hins : insertIgnore now u s =
          ⟨s.rows ++ [freshRow now u s], s.nextId + 1⟩ := by
        simp [insertIgnore, hnew]
      rcases addTasks_append now us (insertIgnore now u s) with ⟨extra, hex⟩
      refine ⟨s.nextId, ?_⟩
      rw [addTasks_cons, hex, hins]
      show rowByKey ((s.rows ++ [freshRow now u s]) ++ extra) (keyOf u) = _
      rw [rowByKey, List.find?_append, List.find?_append]
      have hnone : s.rows.find? (fun r => r.className = (keyOf u).1 ∧
          r.symbolName = (keyOf u).2) = none :=
        rowByKey_eq_none s.rows (keyOf u) hnew
      have hfound : [freshRow now u s].find? (fun r => r.className = (keyOf u).1 ∧
          r.symbolName = (keyOf u).2) = some (freshRow now u s) := by
        simp [List.find?, freshRow, keyOf]
      rw [hnone, hfound]
      rfl
    · have hkne : ¬ keyOf t = keyOf u := hnd0.1 t hmem
      have hnew' : hasKey (insertIgnore now u s).rows (keyOf t) = false := by
        unfold insertIgnore
        by_cases hk : hasKey s.rows (keyOf u)
        · rw [if_pos hk]
          exact hnew
        · rw [if_neg hk]
          show hasKey (s.rows ++ [freshRow now u s]) (keyOf t) = false
          rw [hasKey_append, hnew]
          have h2 : hasKey [freshRow now u s] (keyOf t) = false := by
            simp only [hasKey, List.any_cons, List.any_nil, Bool.or_false,
              decide_eq_false_iff_not, freshRow]
            intro hc
            apply hkne
            have h3 : t.className = u.className := hc.1.symm
            have h4 : t.symbolName = u.symbolName := hc.2.symm
            simp [keyOf, Prod.ext_iff, h3, h4]
          rw [h2]
          rfl
      rw [addTasks_cons]
      exact ih _ hnd0.2 hmem hnew'

/-- Witness for C10: the input `w10task` carries status completed,
retries 7 and stale source and error text, yet seeding it into an empty
store produces a pending row with retries 0, NULL source and error, and
only its class, symbol and assembly. -/
theorem addTasks_inserts_defaults_witness :
    w10task.status = TaskStatus.completed ∧ w10task.retries = 7 ∧
    (∃ i, rowByKey (AddTasks 5 [w10task] Store.empty).rows (keyOf w10task) =
      some { id := i, className := w10task.className, symbolName := w10task.symbolName,
             assemblyCode := w10task.assemblyCode, status := TaskStatus.pending,
             retries := 0, decompiledSource := none, errorMessage := none,
             createdAt := 5, updatedAt := 5 }) :=
  ⟨rfl, rfl,
   addTasks_inserts_defaults 5 w10task [w10task] Store.empty
     (by decide) (by decide) (by decide)⟩

end Decompile
